import Mathlib

/-!
Verification of the KacchiOS_X core resource manager (heap allocator,
process table, scheduler, sleep/wait/wakeup subsystem) against its
natural-language specification.

The C source is shallowly embedded: `size_t` arithmetic is `Nat` with an
explicit wrap at `2^32` wherever the C computation can overflow or
underflow, the heap block list is a `List` of block headers, and the
process table is a total function `Nat → PCB` whose cells `0..15` model
`proctab[MAX_PROCS]`.  Serial output is irrelevant to every property and
is dropped.
-/

namespace KacchiOS

/-! ## Machine arithmetic (i386, 32-bit `size_t` / pointers) -/

/-- The modulus of 32-bit machine arithmetic, `2^32`. -/
def W : Nat := 4294967296

/-- Wrap a value into 32 bits, as unsigned C arithmetic does. -/
def wrap (a : Nat) : Nat := a % W

/-- Unsigned 32-bit subtraction `a - b` with wrap-around, the behaviour of
`size_t` subtraction in C (underflow wraps modulo `2^32`). -/
def sub32 (a b : Nat) : Nat := (a + W - b % W) % W

/-- Alignment step `size = (size + 3) & ~3;` — round a request up to 4-byte alignment
(`memory.c`, used by both `stack_alloc` and `heap_alloc`).  The addition is
`size_t` arithmetic, hence wraps. -/
def align4 (s : Nat) : Nat := (s + 3) % W / 4 * 4

/-- Header size `sizeof(mem_block_t)` on i386: `size_t size` (4) + `int is_free` (4) +
`struct mem_block *next` (4). -/
def HDR : Nat := 12

/-! ## Heap allocator state (`memory.c`)

A `mem_block_t` header carries the payload size and the free flag; the
`next` pointer is represented by list adjacency (the C list is in address
order and covers the arena). -/

structure MBlock where
  size : Nat
  is_free : Bool
deriving DecidableEq, Repr

/-- The allocator globals of `memory.c`: `heap_head` (as the block list;
`[]` models `heap_head == NULL`, i.e. uninitialized) and `mem_stats`. -/
structure Heap where
  blocks : List MBlock
  total_heap_size : Nat
  used_heap_size : Nat
  free_heap_size : Nat
  num_allocations : Nat
  num_deallocations : Nat
deriving DecidableEq, Repr

/-- Model of `mem_init(heap_start, heap_size)`: clear the statistics; reserve the
first half of the region for the bump allocator; build a single free block
covering the second half.  A zero `heap_size` (or null region, not modelled)
leaves the heap uninitialized.  `heap_head->size = heap_actual_size -
sizeof(mem_block_t)` is `size_t` arithmetic, hence `sub32`. -/
def mem_init (heap_size : Nat) : Heap :=
  if heap_size = 0 then
    { blocks := [], total_heap_size := 0, used_heap_size := 0,
      free_heap_size := 0, num_allocations := 0, num_deallocations := 0 }
  else
    let stack_size := heap_size / 2
    let heap_actual_size := heap_size - stack_size
    let headSize := sub32 heap_actual_size HDR
    { blocks := [⟨headSize, true⟩],
      total_heap_size := wrap heap_actual_size,
      used_heap_size := 0,
      free_heap_size := wrap headSize,
      num_allocations := 0,
      num_deallocations := 0 }

/-- Model of `find_free_block(size)`: first-fit scan, returning the index of the
first free block whose size is at least the (aligned) request. -/
def find_free_block : List MBlock → Nat → Option Nat
  | [], _ => none
  | b :: rest, r =>
      if b.is_free = true ∧ r ≤ b.size then some 0
      else (find_free_block rest r).map (· + 1)

/-- Model of `split_block(block, size)` applied to the block at index `i`:
`remaining = block->size - size - sizeof(mem_block_t)` in `size_t`
arithmetic (it wraps below zero), and the block is split when
`remaining > 16`, inserting the free remainder right after it. -/
def split_block : List MBlock → Nat → Nat → List MBlock
  | [], _, _ => []
  | b :: rest, 0, r =>
      let remaining := sub32 (sub32 b.size r) HDR
      if 16 < remaining then ⟨r, b.is_free⟩ :: ⟨remaining, true⟩ :: rest
      else b :: rest
  | b :: rest, i + 1, r => b :: split_block rest i r

/-- Read the block at index `i` (a dangling index yields a dummy block,
never reached on the paths the C code takes). -/
def blockGet (bs : List MBlock) (i : Nat) : MBlock := bs.getD i ⟨0, true⟩

/-- Write `block->is_free = 0;` at index `i`. -/
def markAllocated (bs : List MBlock) (i : Nat) : List MBlock :=
  bs.set i ⟨(blockGet bs i).size, false⟩

/-- Byte offset of the header of block `i` from the start of the heap
area (prefix sum of header + payload sizes). -/
def blockOffset (bs : List MBlock) (i : Nat) : Nat :=
  ((bs.take i).map (fun b => HDR + b.size)).sum

/-- Model of `heap_alloc(size)`: align the request, first-fit scan, split if
worthwhile, mark allocated, update statistics (`size_t` wrap applied),
return the payload offset (`(uint8_t *)block + sizeof(mem_block_t)`). -/
def heap_alloc (h : Heap) (size : Nat) : Heap × Option Nat :=
  if h.blocks = [] then (h, none)
  else if size = 0 then (h, none)
  else
    let r := align4 size
    match find_free_block h.blocks r with
    | none => (h, none)
    | some i =>
        let bs1 := split_block h.blocks i r
        let bsize := (blockGet bs1 i).size
        ({ h with
            blocks := markAllocated bs1 i,
            used_heap_size := wrap (h.used_heap_size + bsize),
            free_heap_size := sub32 h.free_heap_size bsize,
            num_allocations := h.num_allocations + 1 },
         some (blockOffset bs1 i + HDR))

/-- Body of `merge_free_blocks()`, with a fuel argument to make the
recursion structural; each step shortens the list, so `fuel = length`
never runs out (`mergeGo_eq` below is independent of sufficient fuel).
After a merge the scan stays on the merged block, so chains collapse
fully.  `current->size += sizeof(mem_block_t) + current->next->size` is
`size_t` arithmetic. -/
def mergeGo : Nat → List MBlock → List MBlock
  | _, [] => []
  | _, [b] => [b]
  | 0, l => l
  | fuel + 1, a :: b :: rest =>
      if a.is_free = true ∧ b.is_free = true then
        mergeGo fuel (⟨wrap (a.size + HDR + b.size), true⟩ :: rest)
      else
        a :: mergeGo fuel (b :: rest)

/-- Model of `merge_free_blocks()`: repeatedly merge adjacent free blocks. -/
def merge_free_blocks (bs : List MBlock) : List MBlock :=
  mergeGo bs.length bs

/-- Find the index of the block whose payload starts at offset `p`
(the header the C code reaches via `(uint8_t *)ptr - sizeof(mem_block_t)`). -/
def findPayloadIdx : List MBlock → Nat → Nat → Option Nat
  | [], _, _ => none
  | b :: rest, p, off =>
      if off + HDR = p then some 0
      else (findPayloadIdx rest p (off + HDR + b.size)).map (· + 1)

/-- Write `block->is_free = 1;` at index `i`. -/
def markFreeAt (bs : List MBlock) (i : Nat) : List MBlock :=
  bs.set i ⟨(blockGet bs i).size, true⟩

/-- Model of `heap_free(ptr)`: a null pointer is a no-op; a pointer whose header is
already free is a detected double free (reported, no action).  A pointer
that does not address any block's payload is undefined behaviour in C and
is modelled as leaving the heap state unchanged.  Otherwise mark the block
free, update statistics, and coalesce. -/
def heap_free (h : Heap) (p : Nat) : Heap :=
  match findPayloadIdx h.blocks p 0 with
  | none => h
  | some i =>
      if (blockGet h.blocks i).is_free = true then h
      else
        let bsize := (blockGet h.blocks i).size
        { h with
            blocks := merge_free_blocks (markFreeAt h.blocks i),
            used_heap_size := sub32 h.used_heap_size bsize,
            free_heap_size := wrap (h.free_heap_size + bsize),
            num_deallocations := h.num_deallocations + 1 }

/-! ## Process manager state (`process.c` / `process.h`)

The process table is modelled as a total function `Nat → PCB`; the C code
only ever touches indices `0 ≤ i < MAX_PROCS` through its loops, and the
claims only concern those cells.  `currpid` (a `pcb_t *` that is either
`NULL` or `&proctab[k]`) is modelled as `Option Nat` holding the index. -/

inductive PState where
  | PR_TERMINATED
  | PR_CURRENT
  | PR_READY
  | PR_SLEEP
  | PR_WAIT
deriving DecidableEq, Repr

open PState

structure PCB where
  pid : Int
  state : PState
  entry : Option Nat
  stack_base : Option Nat
  esp : Option Nat
  mem : Option Nat
  memsz : Nat
  sleep_ticks : Int
  wait_event : Int
  priority : Int
  dyn_priority : Int
deriving DecidableEq, Repr

def MAX_PROCS : Nat := 16

def PROC_STACK_SIZE : Nat := 4096

structure PMState where
  proctab : Nat → PCB
  current_pid : Int
  currpid : Option Nat

/-- Point update of the table, `proctab[i] = p`. -/
def tabSet (t : Nat → PCB) (i : Nat) (p : PCB) : Nat → PCB :=
  fun j => if j = i then p else t j

/-- Rewrite table cell `i` in place, `proctab[i] = g(proctab[i])`. -/
def updAt (s : PMState) (i : Nat) (g : PCB → PCB) : PMState :=
  { s with proctab := tabSet s.proctab i (g (s.proctab i)) }

/-- The zero-initialized C globals at boot: every field of every PCB is
zero (`PR_TERMINATED` is enumerator 0, pointers are `NULL`), and
`current_pid` carries its explicit initializer `-1`. -/
def bootPCB : PCB :=
  { pid := 0, state := PR_TERMINATED, entry := none, stack_base := none,
    esp := none, mem := none, memsz := 0, sleep_ticks := 0,
    wait_event := 0, priority := 0, dyn_priority := 0 }

def bootPM : PMState :=
  { proctab := fun _ => bootPCB, current_pid := -1, currpid := none }

/-- The PCB contents written by `process_manager_init`'s loop body. -/
def initPCB : PCB :=
  { pid := -1, state := PR_TERMINATED, entry := none, stack_base := none,
    esp := none, mem := none, memsz := 0, sleep_ticks := 0,
    wait_event := -1, priority := 1, dyn_priority := 1 }

/-- Model of `process_manager_initialize()`: reset every table slot; note that
`current_pid` and `currpid` are NOT touched by this function. -/
def process_manager_init (s : PMState) : PMState :=
  { s with proctab := fun j => if j < MAX_PROCS then initPCB else s.proctab j }

/-- A `for (i = 0; i < MAX_PROCS; i++) proctab[i] = g(proctab[i]);` loop
whose body depends only on the cell it rewrites (the shape of the
`scheduler_update_aging`, `process_timer_tick` and `process_wakeup_event`
loops), kept as the sequential fold the C code performs. -/
def tableFor (g : PCB → PCB) (s : PMState) : PMState :=
  { s with proctab :=
      (List.range MAX_PROCS).foldl (fun t i => tabSet t i (g (t i))) s.proctab }

/-- Scan start `(current_pid + 1) % MAX_PROCS` (C `int` remainder is
truncated division; reachable `current_pid` is at least `-1`, so the
result is non-negative). -/
def schedStart (s : PMState) : Nat := ((s.current_pid + 1).tmod 16).toNat

/-- Table index visited at iteration `count` of the selection loop,
`i = (start_search + count) % MAX_PROCS`. -/
def scanIdx (start count : Nat) : Nat := (start + count) % MAX_PROCS

/-- Position of table index `i` in the scan order beginning at `start`
(inverse of `scanIdx` on `[0, MAX_PROCS)`). -/
def scanPos (start i : Nat) : Nat := (i + 16 - start % 16) % 16

/-- One iteration of the selection loop of `scheduler_reschedule`: a
Ready PCB strictly improving on the best dynamic priority seen so far
(initially `-1`) is recorded. -/
def selectStep (s : PMState) (start : Nat) (acc : Option Nat × Int)
    (count : Nat) : Option Nat × Int :=
  if (s.proctab (scanIdx start count)).state = PR_READY ∧
     acc.2 < (s.proctab (scanIdx start count)).dyn_priority then
    (some (scanIdx start count), (s.proctab (scanIdx start count)).dyn_priority)
  else acc

/-- The selection loop of `scheduler_reschedule` (`count` from 0 to 15);
`none` models `next_pid == -1`. -/
def selectReady (s : PMState) : Option Nat :=
  ((List.range MAX_PROCS).foldl (selectStep s (schedStart s)) (none, -1)).1

/-- Tail of `scheduler_reschedule` once `next_pid` is fixed: reset the
winner's dynamic priority, return early when the same process continues,
otherwise demote the previous Current PCB, promote the winner and record
the `ctxsw(&proctab[previous_pid].esp, &proctab[next_pid].esp)` call by
its two slot indices (the register save/restore itself does not change
any field this development reasons about). -/
def reschedDispatch (s : PMState) (previous : Int) (next : Nat) :
    PMState × Option (Int × Nat) :=
  let s1 := updAt s next (fun p => { p with dyn_priority := p.priority })
  if (next : Int) = previous ∧ 0 ≤ previous then (s1, none)
  else
    let s2 :=
      if 0 ≤ previous ∧ (s1.proctab previous.toNat).state = PR_CURRENT then
        updAt s1 previous.toNat (fun p => { p with state := PR_READY })
      else s1
    let s3 := { updAt s2 next (fun p => { p with state := PR_CURRENT }) with
                current_pid := (next : Int), currpid := some next }
    (s3, some (previous, next))

/-- Model of `scheduler_reschedule()`, also reporting the `ctxsw` slot indices
(`none` when one of the early `return`s fires before the switch). -/
def scheduler_reschedule_core (s : PMState) : PMState × Option (Int × Nat) :=
  let previous := s.current_pid
  match selectReady s with
  | none =>
      if 0 ≤ previous ∧ (s.proctab previous.toNat).state = PR_CURRENT then
        (s, none)
      else reschedDispatch s previous 0
  | some n => reschedDispatch s previous n

def scheduler_reschedule (s : PMState) : PMState :=
  (scheduler_reschedule_core s).1

/-- Model of `process_yield_cpu()`. -/
def process_yield_cpu (s : PMState) : PMState :=
  scheduler_reschedule
    (match s.currpid with
     | none => s
     | some i => updAt s i (fun p => { p with state := PR_READY }))

/-- Model of `scheduler_update_aging()`: bump the dynamic priority of every Ready
PCB. -/
def scheduler_update_aging (s : PMState) : PMState :=
  tableFor
    (fun p =>
      if p.state = PR_READY then
        { p with dyn_priority := p.dyn_priority + 1 }
      else p) s

/-- Model of `process_sleep(tick_count)`. -/
def process_sleep (tick_count : Int) (s : PMState) : PMState :=
  if tick_count ≤ 0 then s
  else
    match s.currpid with
    | none => s
    | some i =>
        scheduler_reschedule
          (updAt s i (fun p =>
            { p with sleep_ticks := tick_count, state := PR_SLEEP }))

/-- Model of `process_timer_tick()`: decrement every Sleeping PCB's counter first,
then move it to Ready when the counter has reached zero (or below). -/
def process_timer_tick (s : PMState) : PMState :=
  tableFor
    (fun p =>
      if p.state = PR_SLEEP then
        let t := p.sleep_ticks - 1
        { p with sleep_ticks := t,
                 state := if t ≤ 0 then PR_READY else PR_SLEEP }
      else p) s

/-- Model of `process_wait_event(event_id)`; the C code dereferences `currpid`
unconditionally, so a call with `currpid == NULL` is undefined behaviour
and is modelled as a no-op (it is unreachable in well-formed use). -/
def process_wait_event (event_id : Int) (s : PMState) : PMState :=
  match s.currpid with
  | none => s
  | some i =>
      scheduler_reschedule
        (updAt s i (fun p =>
          { p with wait_event := event_id, state := PR_WAIT }))

/-- Model of `process_wakeup_event(event_id)`: broadcast, clearing the stored event
and readying every matching Waiting PCB. -/
def process_wakeup_event (event_id : Int) (s : PMState) : PMState :=
  tableFor
    (fun p =>
      if p.state = PR_WAIT ∧ p.wait_event = event_id then
        { p with wait_event := -1, state := PR_READY }
      else p) s

/-- Model of `process_terminate()`: mark `proctab[currpid->pid]` Terminated and
clear the current-process globals.  When the stored `pid` lies outside
`[0, MAX_PROCS)` (e.g. `-1` from `process_manager_init`) the C code
writes outside `proctab`; that out-of-bounds write corrupts unrelated
memory but changes no PCB, so the table is modelled as unchanged. -/
def process_terminate (s : PMState) : PMState :=
  match s.currpid with
  | none => s
  | some i =>
      let pid := (s.proctab i).pid
      { proctab :=
          if 0 ≤ pid ∧ pid < 16 then
            (updAt s pid.toNat (fun p => { p with state := PR_TERMINATED })).proctab
          else s.proctab,
        current_pid := -1,
        currpid := none }

/-- First index scan of `process_create` / `process_create_with_stack`:
the first slot holding a Terminated PCB. -/
def findTerminatedIdx (s : PMState) : Option Nat :=
  (List.range MAX_PROCS).find? (fun i => (s.proctab i).state == PR_TERMINATED)

/-- Model of `process_create(func)`: claim a Terminated slot and initialize it
Ready with unit priority; no stack is allocated in this variant.  Returns
the new pid, `-1` when the table is full (`sleep_ticks` and `wait_event`
are not written by the C code and keep their previous slot values). -/
def process_create (func : Option Nat) (s : PMState) : PMState × Int :=
  match findTerminatedIdx s with
  | none => (s, -1)
  | some i =>
      (updAt s i (fun p =>
        { p with pid := (i : Int), state := PR_READY, entry := func,
                 stack_base := none, esp := none, mem := none, memsz := 0,
                 priority := 1, dyn_priority := 1 }),
       (i : Int))

/-- Model of `process_scheduler_start()`: the non-preemptive batch mode — run each
Ready process with a non-null entry to completion in table order.  The
transient `PR_CURRENT` assignment is overwritten by `PR_TERMINATED` in
the same iteration; `current_pid`/`currpid` keep pointing at the last
process started.  The entry functions themselves are external code that
does not touch the manager state (the `kernel.c` demo processes only
write to the serial port). -/
def process_scheduler_start (s : PMState) : PMState :=
  (List.range MAX_PROCS).foldl
    (fun st i =>
      let p := st.proctab i
      if p.state = PR_READY ∧ p.entry ≠ none then
        { updAt st i (fun q => { q with state := PR_TERMINATED }) with
          current_pid := (i : Int), currpid := some i }
      else st) s

/-! ## Combined system state

`process_create_with_stack` couples the process table with the heap
allocator.  Its allocator entry point `memory_allocate` is declared in
`memory.h`/`process.h` but its definition is not part of the sources;
modelled from the spec: §4.1 describes the allocator as the first-fit
heap allocator with block splitting — exactly `heap_alloc` of `memory.c`
— so `memory_allocate` is bound to `heap_alloc`. -/

structure Sys where
  pm : PMState
  heap : Heap

/-- Model of `process_create_with_stack(func)`: claim a Terminated slot, allocate a
4096-byte stack via `memory_allocate` (aborting with the table untouched
when that fails), build the initial saved context inside the allocated
region, and publish the slot Ready.  The pushes that lay out the initial
context write inside the allocated payload and do not affect the block
structure; the numeric `esp` recorded here stands for the resulting
in-stack pointer, which no claim inspects. -/
def process_create_with_stack (func : Option Nat) (s : Sys) : Sys :=
  match findTerminatedIdx s.pm with
  | none => s
  | some i =>
      match heap_alloc s.heap PROC_STACK_SIZE with
      | (h1, none) => { s with heap := h1 }
      | (h1, some off) =>
          { pm := updAt s.pm i (fun p =>
              { p with pid := (i : Int), state := PR_READY, entry := func,
                       stack_base := some off,
                       esp := some (off + PROC_STACK_SIZE),
                       mem := some off, memsz := PROC_STACK_SIZE,
                       priority := 1, dyn_priority := 1 }),
            heap := h1 }

/-! ## Operation sequences

Reachable states are those produced by running the exported operations
from the boot state. -/

inductive POp where
  | initOp
  | createOp (func : Option Nat)
  | createWSOp (func : Option Nat)
  | reschedOp
  | yieldOp
  | sleepOp (t : Int)
  | tickOp
  | waitOp (e : Int)
  | wakeupOp (e : Int)
  | terminateOp
  | batchOp

def stepOp (s : Sys) : POp → Sys
  | .initOp => { s with pm := process_manager_init s.pm }
  | .createOp f => { s with pm := (process_create f s.pm).1 }
  | .createWSOp f => process_create_with_stack f s
  | .reschedOp => { s with pm := scheduler_reschedule s.pm }
  | .yieldOp => { s with pm := process_yield_cpu s.pm }
  | .sleepOp t => { s with pm := process_sleep t s.pm }
  | .tickOp => { s with pm := process_timer_tick s.pm }
  | .waitOp e => { s with pm := process_wait_event e s.pm }
  | .wakeupOp e => { s with pm := process_wakeup_event e s.pm }
  | .terminateOp => { s with pm := process_terminate s.pm }
  | .batchOp => { s with pm := process_scheduler_start s.pm }

def runOps (s : Sys) (ops : List POp) : Sys := ops.foldl stepOp s

/-- The machine state at boot: zeroed globals, allocator initialized on a
`heapSize`-byte region handed over by the boot collaborator. -/
def bootSys (heapSize : Nat) : Sys :=
  { pm := bootPM, heap := mem_init heapSize }

/-- Number of table slots holding a Current PCB. -/
def countCurrent (s : PMState) : Nat :=
  ((List.range MAX_PROCS).filter
    (fun i => (s.proctab i).state == PR_CURRENT)).length

/-- Heap-only operation sequences (claim C2 quantifies over these). -/
inductive HOp where
  | alloc (n : Nat)
  | dealloc (p : Nat)

def stepH (h : Heap) : HOp → Heap
  | .alloc n => (heap_alloc h n).1
  | .dealloc p => heap_free h p

def runH (h : Heap) (ops : List HOp) : Heap := ops.foldl stepH h

/-- Byte addresses (relative to the heap area, modulo `2^32` like i386
pointer arithmetic) covered by the payload of block `i`. -/
def inRegion (bs : List MBlock) (i : Nat) (a : Nat) : Prop :=
  ∃ k, k < (blockGet bs i).size ∧ a = wrap (blockOffset bs i + HDR + k)

/-- Loop invariant of the selection scan (see the section comment). -/
def selGood (s : PMState) (st n : Nat) (acc : Option Nat × Int) : Prop :=
  (acc = (none, -1) ∧ ∀ c, c < n →
      ¬((s.proctab (scanIdx st c)).state = PR_READY ∧
        -1 < (s.proctab (scanIdx st c)).dyn_priority)) ∨
  (∃ c0, c0 < n ∧
      acc = (some (scanIdx st c0), (s.proctab (scanIdx st c0)).dyn_priority) ∧
      (s.proctab (scanIdx st c0)).state = PR_READY ∧
      (∀ c, c < n → (s.proctab (scanIdx st c)).state = PR_READY →
        (s.proctab (scanIdx st c)).dyn_priority ≤
          (s.proctab (scanIdx st c0)).dyn_priority) ∧
      (∀ c, c < c0 → (s.proctab (scanIdx st c)).state = PR_READY →
        (s.proctab (scanIdx st c)).dyn_priority <
          (s.proctab (scanIdx st c0)).dyn_priority))

/-- A state with pid 0 Waiting on event 5, reached through the exported
operations. -/
def wakeupDemo : PMState :=
  (runOps (bootSys 0)
    [POp.initOp, POp.createOp (some 1), POp.reschedOp, POp.waitOp 5]).pm

/-- A system state whose process table holds no Terminated PCB and whose
heap (from a 100-byte region) cannot satisfy a 4096-byte stack request. -/
def fullSys : Sys :=
  { pm := { proctab := fun _ => { initPCB with state := PR_READY },
            current_pid := -1, currpid := none },
    heap := mem_init 100 }

/-- The system state right before the terminate of the C1 counterexample
trace: one process created with a stack and dispatched. -/
def preTerminateSys : Sys :=
  runOps (bootSys 16384) [POp.initOp, POp.createWSOp (some 1), POp.reschedOp]

/-- Two Ready processes reached through the exported operations. -/
def selDemo : PMState :=
  (runOps (bootSys 0)
    [POp.initOp, POp.createOp (some 1), POp.createOp (some 2)]).pm

/-- A state with pid 0 Current, reached through the exported
operations. -/
def sleepDemo : PMState :=
  (runOps (bootSys 0)
    [POp.initOp, POp.createOp (some 1), POp.createOp (some 2),
     POp.reschedOp]).pm

/-! ## Heap bookkeeping quantities and the no-underflow guard -/

/-- Total payload bytes of all blocks. -/
def sumSizes : List MBlock → Nat
  | [] => 0
  | b :: rest => b.size + sumSizes rest

/-- Total payload bytes of the allocated (live) blocks. -/
def sumAllocSizes : List MBlock → Nat
  | [] => 0
  | b :: rest => (if b.is_free = true then 0 else b.size) + sumAllocSizes rest

/-- Total payload bytes of the free blocks. -/
def sumFreeSizes : List MBlock → Nat
  | [] => 0
  | b :: rest => (if b.is_free = true then b.size else 0) + sumFreeSizes rest

/-- Guard for one `heap_alloc` call: the first-fit block (when one is
found) must be at least a header larger than the rounded request, so that
`split_block`'s `remaining = block->size - size - sizeof(mem_block_t)`
does not underflow `size_t` (see claim C6 for the underflow). -/
def allocOk (h : Heap) (n : Nat) : Bool :=
  if n = 0 then true
  else
    match find_free_block h.blocks (align4 n) with
    | none => true
    | some i => decide (align4 n + HDR ≤ (blockGet h.blocks i).size)

/-- A heap-operation sequence in which every allocation satisfies
`allocOk` in the state where it runs. -/
def goodRun (h : Heap) : List HOp → Bool
  | [] => true
  | HOp.alloc n :: rest => allocOk h n && goodRun (heap_alloc h n).1 rest
  | HOp.dealloc p :: rest => goodRun (heap_free h p) rest

/-- The allocator invariant: the block list is nonempty and tiles the
`S`-byte arena (payloads plus one header per block), the tracked used
bytes equal the live payload total, and the tracked free bytes equal the
free payload total plus one header per block beyond the first (the
tracked counters never charge the headers created by splits). -/
def HeapInv (S : Nat) (h : Heap) : Prop :=
  h.blocks ≠ [] ∧
  sumSizes h.blocks + HDR * h.blocks.length = S ∧
  h.used_heap_size = sumAllocSizes h.blocks ∧
  h.free_heap_size + HDR = sumFreeSizes h.blocks + HDR * h.blocks.length ∧
  h.total_heap_size = S

/-! Sanity checks on the embedding (mirroring the `demo` command's little
allocation exercise). -/

example : (mem_init 512).blocks = [⟨244, true⟩] := by decide
example : ((heap_alloc (mem_init 512) 16).1).blocks =
    [⟨16, false⟩, ⟨216, true⟩] := by decide
example : (heap_alloc (mem_init 512) 16).2 = some 12 := by decide
example : (heap_free (heap_alloc (mem_init 512) 16).1 12).blocks =
    [⟨244, true⟩] := by decide

/-! Sanity checks on the process embedding. -/

example :
    (process_create none (process_manager_init bootPM)).2 = 0 := by
  decide

example :
    ((process_create none (process_manager_init bootPM)).1.proctab 0).state
      = PR_READY := by
  decide

example :
    selectReady (process_create none (process_manager_init bootPM)).1
      = some 0 := by
  decide

theorem wrap_eq_of_lt {a : Nat} (h : a < W) : wrap a = a := Nat.mod_eq_of_lt h

theorem sub32_eq_sub {a b : Nat} (hb : b ≤ a) (ha : a < W) : sub32 a b = a - b := by
  unfold sub32
  rw [Nat.mod_eq_of_lt (Nat.lt_of_le_of_lt hb ha)]
  have h1 : a + W - b = (a - b) + W := by omega
  rw [h1, Nat.add_mod_right, Nat.mod_eq_of_lt (by omega)]

theorem sum_partition (bs : List MBlock) :
    sumAllocSizes bs + sumFreeSizes bs = sumSizes bs := by
  induction bs with
  | nil => rfl
  | cons b rest ih =>
      cases hb : b.is_free <;>
        simp [sumSizes, sumAllocSizes, sumFreeSizes, hb] <;> omega

theorem sizeAt_le_sumFree : ∀ (bs : List MBlock) (i : Nat), i < bs.length →
    (blockGet bs i).is_free = true → (blockGet bs i).size ≤ sumFreeSizes bs := by
  intro bs
  induction bs with
  | nil => intro i hi; exact absurd hi (by simp)
  | cons b rest ih =>
      intro i hi hf
      cases i with
      | zero =>
          simp only [blockGet, List.getD_cons_zero] at hf ⊢
          simp [sumFreeSizes, hf]
      | succ i =>
          have hstep : blockGet (b :: rest) (i + 1) = blockGet rest i := by
            simp [blockGet]
          rw [hstep] at hf ⊢
          have := ih i (by simpa using hi) hf
          simp only [sumFreeSizes]
          omega

theorem sizeAt_le_sumAlloc : ∀ (bs : List MBlock) (i : Nat), i < bs.length →
    (blockGet bs i).is_free = false → (blockGet bs i).size ≤ sumAllocSizes bs := by
  intro bs
  induction bs with
  | nil => intro i hi; exact absurd hi (by simp)
  | cons b rest ih =>
      intro i hi hf
      cases i with
      | zero =>
          simp only [blockGet, List.getD_cons_zero] at hf ⊢
          simp [sumAllocSizes, hf]
      | succ i =>
          have hstep : blockGet (b :: rest) (i + 1) = blockGet rest i := by
            simp [blockGet]
          rw [hstep] at hf ⊢
          have := ih i (by simpa using hi) hf
          simp only [sumAllocSizes]
          omega

theorem find_free_block_spec : ∀ (bs : List MBlock) (r i : Nat),
    find_free_block bs r = some i →
    i < bs.length ∧ (blockGet bs i).is_free = true ∧
    r ≤ (blockGet bs i).size := by
  intro bs
  induction bs with
  | nil => intro r i h; exact absurd h (by simp [find_free_block])
  | cons b rest ih =>
      intro r i h
      unfold find_free_block at h
      by_cases hc : b.is_free = true ∧ r ≤ b.size
      · rw [if_pos hc] at h
        injection h with h
        subst h
        exact ⟨by simp, by simpa [blockGet] using hc.1,
          by simpa [blockGet] using hc.2⟩
      · rw [if_neg hc] at h
        cases hr : find_free_block rest r with
        | none => rw [hr] at h; exact absurd h (by simp)
        | some j =>
            rw [hr] at h
            simp only [Option.map_some', Option.some.injEq] at h
            subst h
            obtain ⟨h1, h2, h3⟩ := ih r j hr
            exact ⟨by simpa using h1, by simpa [blockGet] using h2,
              by simpa [blockGet] using h3⟩

/-- Combined effect of `split_block` followed by marking the block
allocated (the body of a successful `heap_alloc`): the blocks still tile
the same arena, the live payload grows by exactly the size charged to the
statistics, and the free payload (plus per-block header overhead) shrinks
by the same amount. -/
theorem alloc_core_sums : ∀ (bs : List MBlock) (i r : Nat),
    find_free_block bs r = some i →
    r + HDR ≤ (blockGet bs i).size →
    (blockGet bs i).size < W →
    sumSizes (markAllocated (split_block bs i r) i) +
        HDR * (markAllocated (split_block bs i r) i).length =
      sumSizes bs + HDR * bs.length ∧
    sumAllocSizes (markAllocated (split_block bs i r) i) =
      sumAllocSizes bs + (blockGet (split_block bs i r) i).size ∧
    sumFreeSizes (markAllocated (split_block bs i r) i) +
        HDR * (markAllocated (split_block bs i r) i).length +
        (blockGet (split_block bs i r) i).size =
      sumFreeSizes bs + HDR * bs.length ∧
    (blockGet (split_block bs i r) i).size ≤ sumFreeSizes bs ∧
    markAllocated (split_block bs i r) i ≠ [] := by
  intro bs
  induction bs with
  | nil => intro i r hf; exact absurd hf (by simp [find_free_block])
  | cons b rest ih =>
      intro i r hf hle hW
      unfold find_free_block at hf
      by_cases hc : b.is_free = true ∧ r ≤ b.size
      · rw [if_pos hc] at hf
        injection hf with hf
        subst hf
        have hb : blockGet (b :: rest) 0 = b := by simp [blockGet]
        rw [hb] at hle hW
        have hHDR : (HDR : Nat) = 12 := rfl
        rw [hHDR] at hle
        have hsub1 : sub32 b.size r = b.size - r :=
          sub32_eq_sub (by omega) hW
        have hsub2 : sub32 (b.size - r) HDR = b.size - r - 12 := by
          rw [hHDR]
          exact sub32_eq_sub (by omega) (by omega)
        simp only [split_block]
        rw [hsub1, hsub2]
        by_cases hrem : 16 < b.size - r - 12
        · rw [if_pos hrem]
          refine ⟨?_, ?_, ?_, ?_, ?_⟩ <;>
            (try simp [markAllocated, blockGet, sumSizes, sumAllocSizes,
              sumFreeSizes, hc.1, HDR]) <;>
            omega
        · rw [if_neg hrem]
          refine ⟨?_, ?_, ?_, ?_, ?_⟩ <;>
            (try simp [markAllocated, blockGet, sumSizes, sumAllocSizes,
              sumFreeSizes, hc.1, HDR]) <;>
            omega
      · rw [if_neg hc] at hf
        cases hr : find_free_block rest r with
        | none => rw [hr] at hf; exact absurd hf (by simp)
        | some j =>
            rw [hr] at hf
            simp only [Option.map_some', Option.some.injEq] at hf
            subst hf
            have hg : blockGet (b :: rest) (j + 1) = blockGet rest j := by
              simp [blockGet]
            rw [hg] at hle hW
            have hsplit : split_block (b :: rest) (j + 1) r =
                b :: split_block rest j r := rfl
            have hg2 : blockGet (split_block (b :: rest) (j + 1) r) (j + 1) =
                blockGet (split_block rest j r) j := by
              rw [hsplit]; simp [blockGet]
            have hmark : markAllocated (split_block (b :: rest) (j + 1) r)
                (j + 1) = b :: markAllocated (split_block rest j r) j := by
              unfold markAllocated
              rw [hsplit]
              have hg3 : blockGet (b :: split_block rest j r) (j + 1) =
                  blockGet (split_block rest j r) j := by
                simp [blockGet]
              rw [hg3, List.set_cons_succ]
            obtain ⟨e1, e2, e3, e4, e5⟩ := ih j r hr hle hW
            rw [hmark, hg2]
            simp only [HDR] at e1 e3 ⊢
            cases hb2 : b.is_free <;>
              simp only [sumSizes, sumAllocSizes, sumFreeSizes,
                List.length_cons, hb2, if_true, if_false, Bool.false_eq_true,
                Bool.true_eq_false] <;>
              exact ⟨by omega, by omega, by omega, by omega, by simp⟩


/-- Effect of marking an allocated block free (the body of a successful
`heap_free` before coalescing). -/
theorem markFree_sums : ∀ (bs : List MBlock) (i : Nat), i < bs.length →
    (blockGet bs i).is_free = false →
    sumSizes (markFreeAt bs i) = sumSizes bs ∧
    (markFreeAt bs i).length = bs.length ∧
    sumAllocSizes (markFreeAt bs i) + (blockGet bs i).size =
      sumAllocSizes bs ∧
    sumFreeSizes (markFreeAt bs i) = sumFreeSizes bs + (blockGet bs i).size := by
  intro bs
  induction bs with
  | nil => intro i hi; exact absurd hi (by simp)
  | cons b rest ih =>
      intro i hi hf
      cases i with
      | zero =>
          have hb : blockGet (b :: rest) 0 = b := by simp [blockGet]
          rw [hb] at hf ⊢
          unfold markFreeAt
          rw [hb, List.set_cons_zero]
          simp [sumSizes, sumAllocSizes, sumFreeSizes, hf] <;> omega
      | succ i =>
          have hb : blockGet (b :: rest) (i + 1) = blockGet rest i := by
            simp [blockGet]
          rw [hb] at hf ⊢
          have hmark : markFreeAt (b :: rest) (i + 1) =
              b :: markFreeAt rest i := by
            unfold markFreeAt
            rw [hb, List.set_cons_succ]
          rw [hmark]
          obtain ⟨e1, e2, e3, e4⟩ := ih i (by simpa using hi) hf
          cases hb2 : b.is_free <;>
            simp only [sumSizes, sumAllocSizes, sumFreeSizes,
              List.length_cons, hb2, if_true, if_false, Bool.false_eq_true,
              Bool.true_eq_false] <;>
            exact ⟨by omega, by omega, by omega, by omega⟩

/-- Lemma: `merge_free_blocks` (via its fuelled body) preserves the tiling, the
live payload, and the free payload plus per-block header overhead, for
any fuel, as long as the tiling total stays below `2^32` (so the merged
sizes do not wrap). -/
theorem mergeGo_sums : ∀ (fuel : Nat) (bs : List MBlock) (N : Nat),
    sumSizes bs + HDR * bs.length ≤ N → N < W →
    sumSizes (mergeGo fuel bs) + HDR * (mergeGo fuel bs).length =
      sumSizes bs + HDR * bs.length ∧
    sumAllocSizes (mergeGo fuel bs) = sumAllocSizes bs ∧
    sumFreeSizes (mergeGo fuel bs) + HDR * (mergeGo fuel bs).length =
      sumFreeSizes bs + HDR * bs.length ∧
    (mergeGo fuel bs = [] ↔ bs = []) := by
  intro fuel
  induction fuel with
  | zero =>
      intro bs N h1 h2
      match bs with
      | [] => simp [mergeGo]
      | [b] => simp [mergeGo]
      | a :: b :: rest => simp [mergeGo]
  | succ fuel ih =>
      intro bs N h1 h2
      match bs with
      | [] => simp [mergeGo]
      | [b] => simp [mergeGo]
      | a :: b :: rest =>
          simp only [mergeGo]
          have h1' : a.size + b.size + sumSizes rest +
              12 * (rest.length + 2) ≤ N := by
            simp only [sumSizes, List.length_cons, HDR] at h1
            omega
          by_cases hab : a.is_free = true ∧ b.is_free = true
          · rw [if_pos hab]
            have hbound : a.size + HDR + b.size < W := by
              simp only [HDR]
              omega
            have hwrap : wrap (a.size + HDR + b.size) =
                a.size + HDR + b.size := wrap_eq_of_lt hbound
            have hlist : (⟨wrap (a.size + HDR + b.size), true⟩ : MBlock) =
                ⟨a.size + HDR + b.size, true⟩ := by rw [hwrap]
            rw [hlist]
            have hb1 : sumSizes (⟨a.size + HDR + b.size, true⟩ :: rest) +
                HDR * (⟨a.size + HDR + b.size, true⟩ :: rest).length ≤ N := by
              simp only [sumSizes, List.length_cons, HDR]
              omega
            obtain ⟨e1, e2, e3, e4⟩ :=
              ih (⟨a.size + HDR + b.size, true⟩ :: rest) N hb1 h2
            simp only [HDR] at e1 e2 e3 e4 ⊢
            refine ⟨?_, ?_, ?_, ?_⟩
            · rw [e1]
              simp only [sumSizes, List.length_cons]
              omega
            · rw [e2]
              simp [sumAllocSizes, hab.1, hab.2]
            · rw [e3]
              simp only [sumFreeSizes, List.length_cons, hab.1, hab.2,
                if_true]
              omega
            · rw [e4]
              simp
          · rw [if_neg hab]
            have hb1 : sumSizes (b :: rest) + HDR * (b :: rest).length ≤ N := by
              simp only [sumSizes, List.length_cons, HDR]
              omega
            obtain ⟨e1, e2, e3, e4⟩ := ih (b :: rest) N hb1 h2
            simp only [HDR] at e1 e3 ⊢
            simp only [sumSizes, sumAllocSizes, sumFreeSizes,
              List.length_cons] at e1 e2 e3 ⊢
            refine ⟨by omega, by omega, by omega, by simp⟩

theorem findPayloadIdx_lt : ∀ (bs : List MBlock) (p off i : Nat),
    findPayloadIdx bs p off = some i → i < bs.length := by
  intro bs
  induction bs with
  | nil => intro p off i h; exact absurd h (by simp [findPayloadIdx])
  | cons b rest ih =>
      intro p off i h
      unfold findPayloadIdx at h
      by_cases hc : off + HDR = p
      · rw [if_pos hc] at h
        injection h with h
        subst h
        simp
      · rw [if_neg hc] at h
        cases hr : findPayloadIdx rest p (off + HDR + b.size) with
        | none => rw [hr] at h; exact absurd h (by simp)
        | some j =>
            rw [hr] at h
            simp only [Option.map_some', Option.some.injEq] at h
            subst h
            have := ih p (off + HDR + b.size) j hr
            simp only [List.length_cons]
            omega

/-- Lemma: `heap_alloc` preserves the allocator invariant when the request
passes the no-underflow guard. -/
theorem heapInv_alloc (S : Nat) (h : Heap) (n : Nat) (hS : S < W)
    (hInv : HeapInv S h) (hok : allocOk h n = true) :
    HeapInv S (heap_alloc h n).1 := by
  obtain ⟨hne, htiles, hused, hfree, htot⟩ := hInv
  unfold heap_alloc
  rw [if_neg hne]
  by_cases hzero : n = 0
  · rw [if_pos hzero]
    exact ⟨hne, htiles, hused, hfree, htot⟩
  · rw [if_neg hzero]
    cases hfind : find_free_block h.blocks (align4 n) with
    | none =>
        simp only [hfind]
        exact ⟨hne, htiles, hused, hfree, htot⟩
    | some i =>
        simp only [hfind]
        have hok2 : align4 n + HDR ≤ (blockGet h.blocks i).size := by
          unfold allocOk at hok
          rw [if_neg hzero, hfind] at hok
          exact of_decide_eq_true hok
        obtain ⟨hiLen, hiFree, hiSz⟩ :=
          find_free_block_spec h.blocks (align4 n) i hfind
        have hsumParts := sum_partition h.blocks
        have hfreeLe := sizeAt_le_sumFree h.blocks i hiLen hiFree
        have htiles12 : sumSizes h.blocks + 12 * h.blocks.length = S := by
          simp only [HDR] at htiles
          exact htiles
        have hszW : (blockGet h.blocks i).size < W := by omega
        obtain ⟨e1, e2, e3, e4, e5⟩ :=
          alloc_core_sums h.blocks i (align4 n) hfind hok2 hszW
        have hlen : 1 ≤ h.blocks.length := by
          cases hbl : h.blocks
          · exact absurd hbl hne
          · simp
        have hfree12 : h.free_heap_size + 12 =
            sumFreeSizes h.blocks + 12 * h.blocks.length := by
          simp only [HDR] at hfree
          exact hfree

        have hwrap_used : wrap (h.used_heap_size +
            (blockGet (split_block h.blocks i (align4 n)) i).size) =
            h.used_heap_size +
              (blockGet (split_block h.blocks i (align4 n)) i).size :=
          wrap_eq_of_lt (by omega)
        have hfree_ge : (blockGet (split_block h.blocks i (align4 n)) i).size ≤
            h.free_heap_size := by omega
        have hfreeW : h.free_heap_size < W := by omega
        have hsub : sub32 h.free_heap_size
            (blockGet (split_block h.blocks i (align4 n)) i).size =
            h.free_heap_size -
              (blockGet (split_block h.blocks i (align4 n)) i).size :=
          sub32_eq_sub hfree_ge hfreeW
        refine ⟨e5, by rw [e1]; exact htiles, ?_, ?_, htot⟩
        · rw [hwrap_used, e2, hused]
        · rw [hsub]
          simp only [HDR] at e3 ⊢
          omega

/-- Lemma: `heap_free` preserves the allocator invariant unconditionally. -/
theorem heapInv_free (S : Nat) (h : Heap) (p : Nat) (hS : S < W)
    (hInv : HeapInv S h) : HeapInv S (heap_free h p) := by
  obtain ⟨hne, htiles, hused, hfree, htot⟩ := hInv
  unfold heap_free
  cases hfind : findPayloadIdx h.blocks p 0 with
  | none =>
      simp only [hfind]
      exact ⟨hne, htiles, hused, hfree, htot⟩
  | some i =>
      simp only [hfind]
      by_cases hif : (blockGet h.blocks i).is_free = true
      · rw [if_pos hif]
        exact ⟨hne, htiles, hused, hfree, htot⟩
      · rw [if_neg hif]
        have hiLen := findPayloadIdx_lt h.blocks p 0 i hfind
        have hIfFalse : (blockGet h.blocks i).is_free = false := by
          cases hx : (blockGet h.blocks i).is_free
          · rfl
          · exact absurd hx hif
        obtain ⟨m1, m2, m3, m4⟩ := markFree_sums h.blocks i hiLen hIfFalse
        have hmb : sumSizes (markFreeAt h.blocks i) +
            HDR * (markFreeAt h.blocks i).length ≤ S := by
          rw [m1, m2]
          exact le_of_eq htiles
        obtain ⟨g1, g2, g3, g4⟩ := mergeGo_sums (markFreeAt h.blocks i).length
          (markFreeAt h.blocks i) S hmb hS
        have hmfb : merge_free_blocks (markFreeAt h.blocks i) =
            mergeGo (markFreeAt h.blocks i).length (markFreeAt h.blocks i) :=
          rfl
        have hsumParts := sum_partition h.blocks
        have hbsz_used : (blockGet h.blocks i).size ≤ h.used_heap_size := by
          rw [hused]
          exact sizeAt_le_sumAlloc h.blocks i hiLen hIfFalse
        have htiles12 : sumSizes h.blocks + 12 * h.blocks.length = S := by
          simp only [HDR] at htiles
          exact htiles
        have hfree12 : h.free_heap_size + 12 =
            sumFreeSizes h.blocks + 12 * h.blocks.length := by
          simp only [HDR] at hfree
          exact hfree
        have hlen : 1 ≤ h.blocks.length := by
          cases hbl : h.blocks
          · exact absurd hbl hne
          · simp
        have husedW : h.used_heap_size < W := by
          rw [hused]
          omega
        have hfree_plus : h.free_heap_size + (blockGet h.blocks i).size < W := by
          rw [hused] at hbsz_used
          omega
        refine ⟨?_, ?_, ?_, ?_, htot⟩
        · rw [hmfb]
          intro hx
          rw [g4] at hx
          rw [hx] at m2
          cases hbl : h.blocks
          · exact absurd hbl hne
          · rw [hbl] at m2
            exact absurd m2.symm (by simp)
        · rw [hmfb, g1, m1, m2]
          exact htiles
        · show sub32 h.used_heap_size (blockGet h.blocks i).size =
            sumAllocSizes (merge_free_blocks (markFreeAt h.blocks i))
          rw [hmfb, g2, sub32_eq_sub hbsz_used husedW, hused]
          omega
        · show wrap (h.free_heap_size + (blockGet h.blocks i).size) + HDR =
            sumFreeSizes (merge_free_blocks (markFreeAt h.blocks i)) +
              HDR * (merge_free_blocks (markFreeAt h.blocks i)).length
          rw [hmfb, wrap_eq_of_lt hfree_plus]
          simp only [HDR] at g3 ⊢
          omega

/-- Lemma: `mem_init` establishes the allocator invariant for the heap half of
the region. -/
theorem heapInv_init (heapSize : Nat) (h24 : 24 ≤ heapSize)
    (hW : heapSize < W) :
    HeapInv (heapSize - heapSize / 2) (mem_init heapSize) := by
  unfold mem_init
  rw [if_neg (by omega : ¬ heapSize = 0)]
  have hS12 : 12 ≤ heapSize - heapSize / 2 := by omega
  have hSW : heapSize - heapSize / 2 < W := by omega
  have hsub : sub32 (heapSize - heapSize / 2) HDR =
      heapSize - heapSize / 2 - 12 := by
    have := sub32_eq_sub (a := heapSize - heapSize / 2) (b := HDR)
      (by simp only [HDR]; omega) hSW
    simpa [HDR] using this
  refine ⟨by simp, ?_, by simp [sumAllocSizes], ?_, wrap_eq_of_lt hSW⟩
  · show sumSizes [⟨sub32 (heapSize - heapSize / 2) HDR, true⟩] + HDR * 1 =
      heapSize - heapSize / 2
    rw [hsub]
    simp only [sumSizes, HDR]
    omega
  · show wrap (sub32 (heapSize - heapSize / 2) HDR) + HDR =
      sumFreeSizes [⟨sub32 (heapSize - heapSize / 2) HDR, true⟩] + HDR * 1
    rw [hsub, wrap_eq_of_lt (by omega)]
    simp [sumFreeSizes]

/-- The allocator invariant holds in every state reachable by a guarded
operation sequence. -/
theorem heapInv_run (S : Nat) (hS : S < W) :
    ∀ (ops : List HOp) (h : Heap), HeapInv S h → goodRun h ops = true →
      HeapInv S (runH h ops) := by
  intro ops
  induction ops with
  | nil => intro h hI _; exact hI
  | cons op rest ih =>
      intro h hI hg
      cases op with
      | alloc n =>
          unfold goodRun at hg
          rw [Bool.and_eq_true] at hg
          exact ih _ (heapInv_alloc S h n hS hI hg.1) hg.2
      | dealloc p =>
          unfold goodRun at hg
          exact ih _ (heapInv_free S h p hS hI) hg

theorem blockOffset_succ : ∀ (bs : List MBlock) (i : Nat), i < bs.length →
    blockOffset bs (i + 1) = blockOffset bs i + (HDR + (blockGet bs i).size) := by
  intro bs
  induction bs with
  | nil => intro i hi; exact absurd hi (by simp)
  | cons b rest ih =>
      intro i hi
      cases i with
      | zero => simp [blockOffset, blockGet]
      | succ i =>
          have hih := ih i (by simpa using hi)
          have hbg : blockGet (b :: rest) (i + 1) = blockGet rest i := by
            simp [blockGet]
          simp only [blockOffset, List.take_succ_cons, List.map_cons,
            List.sum_cons] at hih ⊢
          rw [hbg]
          omega

theorem blockOffset_len : ∀ (bs : List MBlock),
    blockOffset bs bs.length = sumSizes bs + HDR * bs.length := by
  intro bs
  induction bs with
  | nil => simp [blockOffset, sumSizes]
  | cons b rest ih =>
      show blockOffset (b :: rest) (rest.length + 1) = _
      simp only [blockOffset, List.take_succ_cons, List.map_cons,
        List.sum_cons] at ih ⊢
      simp only [sumSizes, List.length_cons, HDR] at ih ⊢
      omega

theorem blockOffset_mono (bs : List MBlock) (i : Nat) :
    ∀ (j : Nat), i < j → j ≤ bs.length →
      blockOffset bs i + HDR + (blockGet bs i).size ≤ blockOffset bs j := by
  intro j
  induction j with
  | zero => intro h; exact absurd h (by omega)
  | succ j ih =>
      intro hij hj
      rcases Nat.lt_succ_iff_lt_or_eq.mp hij with h | h
      · have h1 := ih h (by omega)
        have h2 := blockOffset_succ bs j (by omega)
        omega
      · subst h
        have h2 := blockOffset_succ bs i (by omega)
        omega

/-- Payload regions of two distinct blocks of a tiling block list are
disjoint as sets of (mod `2^32`) byte addresses. -/
theorem regions_disjoint (bs : List MBlock) (S : Nat)
    (htiles : sumSizes bs + HDR * bs.length = S) (hS : S < W)
    (i j : Nat) (hij : i < j) (hj : j < bs.length) (a : Nat)
    (ha1 : inRegion bs i a) (ha2 : inRegion bs j a) : False := by
  obtain ⟨k, hk, hka⟩ := ha1
  obtain ⟨k2, hk2, hka2⟩ := ha2
  have h1 := blockOffset_mono bs i j hij (by omega)
  have h2 := blockOffset_mono bs j bs.length hj (le_refl _)
  have h3 := blockOffset_len bs
  have hb1 : blockOffset bs i + HDR + k < W := by omega
  have hb2 : blockOffset bs j + HDR + k2 < W := by omega
  rw [wrap_eq_of_lt hb1] at hka
  rw [wrap_eq_of_lt hb2] at hka2
  have hHDRpos : 0 < HDR := by simp [HDR]
  omega

/-- Claim C2, amended: for every heap-operation sequence from `mem_init`
in which each allocation is served by a free block at least one header
larger than the rounded request (excluding the `split_block` size_t
underflow — see the counterexample's second part), in every reachable
state: tracked used + tracked free equals the arena size minus a single
header (not minus the per-block header overhead, which the tracked
counters ignore); tracked used equals the total live payload; the blocks
tile the arena; and live (allocated) payload regions never overlap. -/
theorem C2_amended_heap_invariant (heapSize : Nat) (ops : List HOp)
    (h24 : 24 ≤ heapSize) (hW : heapSize < W)
    (hgood : goodRun (mem_init heapSize) ops = true) :
    (runH (mem_init heapSize) ops).used_heap_size +
        (runH (mem_init heapSize) ops).free_heap_size + HDR =
      heapSize - heapSize / 2 ∧
    (runH (mem_init heapSize) ops).used_heap_size =
      sumAllocSizes (runH (mem_init heapSize) ops).blocks ∧
    sumSizes (runH (mem_init heapSize) ops).blocks +
        HDR * (runH (mem_init heapSize) ops).blocks.length =
      heapSize - heapSize / 2 ∧
    (∀ i j a, i < j → j < (runH (mem_init heapSize) ops).blocks.length →
      (blockGet (runH (mem_init heapSize) ops).blocks i).is_free = false →
      (blockGet (runH (mem_init heapSize) ops).blocks j).is_free = false →
      inRegion (runH (mem_init heapSize) ops).blocks i a →
      inRegion (runH (mem_init heapSize) ops).blocks j a → False) := by
  have hSW : heapSize - heapSize / 2 < W := by omega
  have hInv := heapInv_run (heapSize - heapSize / 2) hSW ops (mem_init heapSize)
    (heapInv_init heapSize h24 hW) hgood
  obtain ⟨hne, htiles, hused, hfree, htot⟩ := hInv
  have htilesKeep := htiles
  refine ⟨?_, hused, htiles, ?_⟩
  · have hsp := sum_partition (runH (mem_init heapSize) ops).blocks
    simp only [HDR] at htiles hfree ⊢
    omega
  · intro i j a hij hj hfi hfj h1 h2
    exact regions_disjoint _ (heapSize - heapSize / 2) htilesKeep hSW i j hij
      hj a h1 h2

theorem C2_amended_heap_invariant_witness :
    24 ≤ 512 ∧ 512 < W ∧
    goodRun (mem_init 512)
      [HOp.alloc 16, HOp.alloc 100, HOp.dealloc 12, HOp.alloc 4] = true ∧
    ((runH (mem_init 512)
        [HOp.alloc 16, HOp.alloc 100, HOp.dealloc 12, HOp.alloc 4]).used_heap_size +
        (runH (mem_init 512)
          [HOp.alloc 16, HOp.alloc 100, HOp.dealloc 12, HOp.alloc 4]).free_heap_size +
        HDR = 512 - 512 / 2 ∧
     (runH (mem_init 512)
        [HOp.alloc 16, HOp.alloc 100, HOp.dealloc 12, HOp.alloc 4]).used_heap_size =
       sumAllocSizes (runH (mem_init 512)
         [HOp.alloc 16, HOp.alloc 100, HOp.dealloc 12, HOp.alloc 4]).blocks ∧
     sumSizes (runH (mem_init 512)
         [HOp.alloc 16, HOp.alloc 100, HOp.dealloc 12, HOp.alloc 4]).blocks +
         HDR * (runH (mem_init 512)
           [HOp.alloc 16, HOp.alloc 100, HOp.dealloc 12, HOp.alloc 4]).blocks.length =
       512 - 512 / 2 ∧
     (∀ i j a, i < j →
       j < (runH (mem_init 512)
         [HOp.alloc 16, HOp.alloc 100, HOp.dealloc 12, HOp.alloc 4]).blocks.length →
       (blockGet (runH (mem_init 512)
         [HOp.alloc 16, HOp.alloc 100, HOp.dealloc 12, HOp.alloc 4]).blocks i).is_free = false →
       (blockGet (runH (mem_init 512)
         [HOp.alloc 16, HOp.alloc 100, HOp.dealloc 12, HOp.alloc 4]).blocks j).is_free = false →
       inRegion (runH (mem_init 512)
         [HOp.alloc 16, HOp.alloc 100, HOp.dealloc 12, HOp.alloc 4]).blocks i a →
       inRegion (runH (mem_init 512)
         [HOp.alloc 16, HOp.alloc 100, HOp.dealloc 12, HOp.alloc 4]).blocks j a →
       False)) :=
  ⟨by decide, by decide, by decide,
   C2_amended_heap_invariant 512
     [HOp.alloc 16, HOp.alloc 100, HOp.dealloc 12, HOp.alloc 4]
     (by decide) (by decide) (by decide)⟩

/-! ## Basic lemmas about the table loops -/

theorem tabSet_eq (t : Nat → PCB) (i : Nat) (p : PCB) : tabSet t i p i = p := by
  simp [tabSet]

theorem tabSet_ne (t : Nat → PCB) (i j : Nat) (p : PCB) (h : j ≠ i) :
    tabSet t i p j = t j := by
  simp [tabSet, h]

theorem updAt_proctab (s : PMState) (i : Nat) (g : PCB → PCB) (j : Nat) :
    (updAt s i g).proctab j = if j = i then g (s.proctab i) else s.proctab j := by
  by_cases h : j = i <;> simp [updAt, tabSet, h]

theorem updAt_current (s : PMState) (i : Nat) (g : PCB → PCB) :
    (updAt s i g).current_pid = s.current_pid := rfl

theorem updAt_currpid (s : PMState) (i : Nat) (g : PCB → PCB) :
    (updAt s i g).currpid = s.currpid := rfl

theorem foldTab (g : PCB → PCB) :
    ∀ (n : Nat) (t : Nat → PCB) (j : Nat),
      (List.range n).foldl (fun t i => tabSet t i (g (t i))) t j =
        if j < n then g (t j) else t j := by
  intro n
  induction n with
  | zero => intro t j; simp
  | succ n ih =>
      intro t j
      rw [List.range_succ, List.foldl_append]
      simp only [List.foldl_cons, List.foldl_nil]
      rcases Nat.lt_trichotomy j n with h | h | h
      · rw [tabSet_ne _ _ _ _ (by omega), ih, if_pos h, if_pos (by omega)]
      · subst h
        rw [tabSet_eq, ih, if_neg (by omega), if_pos (by omega)]
      · rw [tabSet_ne _ _ _ _ (by omega), ih, if_neg (by omega),
          if_neg (by omega)]

/-- Each of the `for (i = 0; i < MAX_PROCS; i++)` loops whose body rewrites
only `proctab[i]` acts pointwise. -/
theorem tableFor_proctab (g : PCB → PCB) (s : PMState) (j : Nat) :
    (tableFor g s).proctab j =
      if j < MAX_PROCS then g (s.proctab j) else s.proctab j := by
  unfold tableFor
  exact foldTab g MAX_PROCS s.proctab j

theorem tableFor_current (g : PCB → PCB) (s : PMState) :
    (tableFor g s).current_pid = s.current_pid := rfl

theorem tableFor_currpid (g : PCB → PCB) (s : PMState) :
    (tableFor g s).currpid = s.currpid := rfl

/-! ## Claim C7: wakeup is a broadcast -/

/-- Claim C7: a single `process_wakeup_event(e)` call moves every Waiting
PCB whose stored event id equals `e` to Ready (clearing the stored event),
and leaves every other PCB — non-matching Waiting ones and PCBs in other
states — exactly as it was; the current-process globals are untouched. -/
theorem C7_wakeup_broadcast (s : PMState) (e : Int) (j : Nat)
    (hj : j < MAX_PROCS) :
    (process_wakeup_event e s).proctab j =
      (if (s.proctab j).state = PR_WAIT ∧ (s.proctab j).wait_event = e then
        { s.proctab j with wait_event := -1, state := PR_READY }
       else s.proctab j) ∧
    (process_wakeup_event e s).current_pid = s.current_pid ∧
    (process_wakeup_event e s).currpid = s.currpid := by
  unfold process_wakeup_event
  exact ⟨by rw [tableFor_proctab, if_pos hj], rfl, rfl⟩

theorem C7_wakeup_broadcast_witness :
    0 < MAX_PROCS ∧
    ((process_wakeup_event 5 wakeupDemo).proctab 0 =
      (if (wakeupDemo.proctab 0).state = PR_WAIT ∧
          (wakeupDemo.proctab 0).wait_event = 5 then
        { wakeupDemo.proctab 0 with wait_event := -1, state := PR_READY }
       else wakeupDemo.proctab 0) ∧
     (process_wakeup_event 5 wakeupDemo).current_pid = wakeupDemo.current_pid ∧
     (process_wakeup_event 5 wakeupDemo).currpid = wakeupDemo.currpid) :=
  ⟨by decide, C7_wakeup_broadcast wakeupDemo 5 0 (by decide)⟩

/-! ## Claim C5: creation failure is atomic -/

theorem heap_alloc_fail_eq (h : Heap) (n : Nat)
    (hf : (heap_alloc h n).2 = none) : (heap_alloc h n).1 = h := by
  unfold heap_alloc at hf ⊢
  by_cases h1 : h.blocks = []
  · simp [h1]
  · simp only [h1, if_false]
    by_cases h2 : n = 0
    · simp [h2]
    · simp only [h2, if_false]
      cases hfind : find_free_block h.blocks (align4 n) with
      | none => simp [hfind]
      | some i => simp [h1, h2, hfind] at hf

/-- Claim C5: process creation fails atomically.  (a) When no slot holds
a Terminated PCB, `process_create` returns the failure value `-1` and the
table is exactly as before.  (b) When the stack allocation inside
`process_create_with_stack` fails, the whole creation is a no-op: table
and heap are left in their prior state. -/
theorem C5_create_failure_atomic (sys : Sys) (f : Option Nat) :
    ((∀ i, i < MAX_PROCS → (sys.pm.proctab i).state ≠ PR_TERMINATED) →
      process_create f sys.pm = (sys.pm, -1)) ∧
    ((heap_alloc sys.heap PROC_STACK_SIZE).2 = none →
      process_create_with_stack f sys = sys) := by
  constructor
  · intro hfull
    have hnone : findTerminatedIdx sys.pm = none := by
      unfold findTerminatedIdx
      rw [List.find?_eq_none]
      intro i hi
      simp only [List.mem_range] at hi
      simp only [beq_iff_eq]
      exact hfull i hi
    unfold process_create
    rw [hnone]
  · intro hfail
    unfold process_create_with_stack
    cases hfind : findTerminatedIdx sys.pm with
    | none => rfl
    | some i =>
        have h1 : (heap_alloc sys.heap PROC_STACK_SIZE).1 = sys.heap :=
          heap_alloc_fail_eq _ _ hfail
        rcases halloc : heap_alloc sys.heap PROC_STACK_SIZE with ⟨hp, r⟩
        rw [halloc] at h1 hfail
        simp only at h1 hfail
        subst h1 hfail
        rfl

theorem C5_create_failure_atomic_witness :
    (∀ i, i < MAX_PROCS → (fullSys.pm.proctab i).state ≠ PR_TERMINATED) ∧
    (heap_alloc fullSys.heap PROC_STACK_SIZE).2 = none ∧
    process_create (some 1) fullSys.pm = (fullSys.pm, -1) ∧
    process_create_with_stack (some 1) fullSys = fullSys :=
  ⟨by decide, by decide,
   (C5_create_failure_atomic fullSys (some 1)).1 (by decide),
   (C5_create_failure_atomic fullSys (some 1)).2 (by decide)⟩

/-! ## Claim C1 (amended): explicit termination releases nothing -/

/-- Claim C1, amended: explicit termination marks the terminating
process's slot Terminated and clears the current-process globals, but it
releases nothing back to the allocator — the entire heap state (block
list, free/used byte counts, deallocation count) is unchanged — and the
PCB's owned fields (`stack_base`, `mem`, `memsz`, `esp`) keep their
values; every other slot is untouched.  (Consequently the free-heap count
does not return to its pre-creation value — see the counterexample — and,
trivially, no stack block is ever freed twice, since none is ever
freed.) -/
theorem C1_amended_terminate_releases_nothing (s : Sys) (i : Nat)
    (hc : s.pm.currpid = some i)
    (hpid : (s.pm.proctab i).pid = (i : Int)) (hi : i < MAX_PROCS) :
    (stepOp s POp.terminateOp).heap = s.heap ∧
    ((stepOp s POp.terminateOp).pm.proctab i).state = PR_TERMINATED ∧
    ((stepOp s POp.terminateOp).pm.proctab i).mem = (s.pm.proctab i).mem ∧
    ((stepOp s POp.terminateOp).pm.proctab i).stack_base =
      (s.pm.proctab i).stack_base ∧
    ((stepOp s POp.terminateOp).pm.proctab i).memsz = (s.pm.proctab i).memsz ∧
    ((stepOp s POp.terminateOp).pm.proctab i).esp = (s.pm.proctab i).esp ∧
    (stepOp s POp.terminateOp).pm.currpid = none ∧
    (stepOp s POp.terminateOp).pm.current_pid = -1 ∧
    (∀ j, j ≠ i → (stepOp s POp.terminateOp).pm.proctab j = s.pm.proctab j) := by
  have hstep : stepOp s POp.terminateOp = { s with pm := process_terminate s.pm } := rfl
  have hcond : (0 : Int) ≤ (i : Int) ∧ (i : Int) < 16 := by
    constructor
    · exact Int.ofNat_nonneg i
    · exact_mod_cast hi
  rw [hstep]
  simp only [process_terminate, hc, hpid, if_pos hcond, Int.toNat_ofNat]
  refine ⟨?_, ?_, ?_, ?_, ?_, ?_, ?_, ?_, ?_⟩
  all_goals
    first
      | trivial
      | (intro j hj; simp [updAt, tabSet, hj])
      | simp [updAt, tabSet]

theorem C1_amended_terminate_releases_nothing_witness :
    preTerminateSys.pm.currpid = some 0 ∧
    (preTerminateSys.pm.proctab 0).pid = ((0 : Nat) : Int) ∧
    0 < MAX_PROCS ∧
    ((stepOp preTerminateSys POp.terminateOp).heap = preTerminateSys.heap ∧
     ((stepOp preTerminateSys POp.terminateOp).pm.proctab 0).state =
       PR_TERMINATED ∧
     ((stepOp preTerminateSys POp.terminateOp).pm.proctab 0).mem =
       (preTerminateSys.pm.proctab 0).mem ∧
     ((stepOp preTerminateSys POp.terminateOp).pm.proctab 0).stack_base =
       (preTerminateSys.pm.proctab 0).stack_base ∧
     ((stepOp preTerminateSys POp.terminateOp).pm.proctab 0).memsz =
       (preTerminateSys.pm.proctab 0).memsz ∧
     ((stepOp preTerminateSys POp.terminateOp).pm.proctab 0).esp =
       (preTerminateSys.pm.proctab 0).esp ∧
     (stepOp preTerminateSys POp.terminateOp).pm.currpid = none ∧
     (stepOp preTerminateSys POp.terminateOp).pm.current_pid = -1 ∧
     (∀ j, j ≠ 0 →
       (stepOp preTerminateSys POp.terminateOp).pm.proctab j =
         preTerminateSys.pm.proctab j)) :=
  ⟨by decide, by decide, by decide,
   C1_amended_terminate_releases_nothing preTerminateSys 0 (by decide)
     (by decide) (by decide)⟩

/-! ## The selection loop of `scheduler_reschedule`

`selGood` is the loop invariant of the selection scan: after the first
`n` iterations the accumulator is either still the initial `(none, -1)`
— and no visited slot was Ready with dynamic priority above the `-1`
sentinel — or it holds the first-visited Ready slot of maximal dynamic
priority among the visited ones. -/

theorem scanIdx_lt (st c : Nat) : scanIdx st c < MAX_PROCS := by
  unfold scanIdx MAX_PROCS
  omega

theorem scanPos_lt (st i : Nat) : scanPos st i < 16 := by
  unfold scanPos
  omega

theorem scanIdx_scanPos (st i : Nat) (hi : i < 16) :
    scanIdx st (scanPos st i) = i := by
  unfold scanIdx scanPos MAX_PROCS
  omega

theorem scanPos_scanIdx (st c : Nat) (hc : c < 16) :
    scanPos st (scanIdx st c) = c := by
  unfold scanIdx scanPos MAX_PROCS
  omega

theorem selGood_step (s : PMState) (st n : Nat) (acc : Option Nat × Int)
    (h : selGood s st n acc) : selGood s st (n + 1) (selectStep s st acc n) := by
  unfold selectStep
  by_cases hc : (s.proctab (scanIdx st n)).state = PR_READY ∧
      acc.2 < (s.proctab (scanIdx st n)).dyn_priority
  · rw [if_pos hc]
    right
    refine ⟨n, by omega, rfl, hc.1, ?_, ?_⟩
    · intro c hcn hcr
      rcases Nat.lt_succ_iff_lt_or_eq.mp hcn with h1 | h1
      · rcases h with ⟨hacc, hnone⟩ | ⟨c0, _, hacc, _, hmax, _⟩
        · have hble : ¬(-1 < (s.proctab (scanIdx st c)).dyn_priority) :=
            fun hlt => hnone c h1 ⟨hcr, hlt⟩
          have hacc2 : acc.2 = -1 := by rw [hacc]
          have := hc.2
          omega
        · have h2 := hmax c h1 hcr
          have hacc2 : acc.2 = (s.proctab (scanIdx st c0)).dyn_priority := by
            rw [hacc]
          have := hc.2
          omega
      · subst h1
        exact le_refl _
    · intro c hcd hcr
      rcases h with ⟨hacc, hnone⟩ | ⟨c0, _, hacc, _, hmax, _⟩
      · have hble : ¬(-1 < (s.proctab (scanIdx st c)).dyn_priority) :=
          fun hlt => hnone c hcd ⟨hcr, hlt⟩
        have hacc2 : acc.2 = -1 := by rw [hacc]
        have := hc.2
        omega
      · have h2 := hmax c hcd hcr
        have hacc2 : acc.2 = (s.proctab (scanIdx st c0)).dyn_priority := by
          rw [hacc]
        have := hc.2
        omega
  · rw [if_neg hc]
    rcases h with ⟨hacc, hnone⟩ | ⟨c0, hc0, hacc, hr0, hmax, hstrict⟩
    · left
      refine ⟨hacc, ?_⟩
      intro c hcn
      rcases Nat.lt_succ_iff_lt_or_eq.mp hcn with h1 | h1
      · exact hnone c h1
      · subst h1
        intro hcon
        apply hc
        refine ⟨hcon.1, ?_⟩
        have hacc2 : acc.2 = -1 := by rw [hacc]
        have := hcon.2
        omega
    · right
      refine ⟨c0, by omega, hacc, hr0, ?_, hstrict⟩
      intro c hcn hcr
      rcases Nat.lt_succ_iff_lt_or_eq.mp hcn with h1 | h1
      · exact hmax c h1 hcr
      · subst h1
        have hnlt : ¬(acc.2 < (s.proctab (scanIdx st c)).dyn_priority) :=
          fun hlt => hc ⟨hcr, hlt⟩
        have hacc2 : acc.2 = (s.proctab (scanIdx st c0)).dyn_priority := by
          rw [hacc]
        omega

theorem selGood_fold (s : PMState) (st : Nat) :
    ∀ n, selGood s st n ((List.range n).foldl (selectStep s st) (none, -1)) := by
  intro n
  induction n with
  | zero =>
      left
      exact ⟨rfl, fun c hc => absurd hc (by omega)⟩
  | succ n ih =>
      rw [List.range_succ, List.foldl_append, List.foldl_cons, List.foldl_nil]
      exact selGood_step s st n _ ih

theorem selectReady_eq_fold (s : PMState) :
    selectReady s =
      ((List.range MAX_PROCS).foldl (selectStep s (schedStart s)) (none, -1)).1 :=
  rfl

/-- A selected slot is a Ready slot inside the table. -/
theorem selectReady_ready (s : PMState) (n : Nat)
    (h : selectReady s = some n) :
    (s.proctab n).state = PR_READY ∧ n < MAX_PROCS := by
  have hg := selGood_fold s (schedStart s) MAX_PROCS
  rw [selectReady_eq_fold] at h
  rcases hg with ⟨hacc, _⟩ | ⟨c0, _, hacc, hr0, _, _⟩
  · rw [hacc] at h
    exact absurd h (by simp)
  · rw [hacc] at h
    simp only [Option.some.injEq] at h
    subst h
    exact ⟨hr0, scanIdx_lt _ _⟩

/-- Full characterization of the selection: as soon as some Ready slot
has dynamic priority above the `-1` sentinel, the scan returns a Ready
slot of maximal dynamic priority, and among the maximal ones the one
visited first in the rotating scan order that begins at
`(current_pid + 1) % MAX_PROCS`. -/
theorem selectReady_finds (s : PMState) (j : Nat) (hj : j < MAX_PROCS)
    (hready : (s.proctab j).state = PR_READY)
    (hdyn : -1 < (s.proctab j).dyn_priority) :
    ∃ w, selectReady s = some w ∧ w < MAX_PROCS ∧
      (s.proctab w).state = PR_READY ∧
      (∀ i, i < MAX_PROCS → (s.proctab i).state = PR_READY →
        (s.proctab i).dyn_priority ≤ (s.proctab w).dyn_priority) ∧
      (∀ i, i < MAX_PROCS → (s.proctab i).state = PR_READY →
        (s.proctab i).dyn_priority = (s.proctab w).dyn_priority →
        scanPos (schedStart s) w ≤ scanPos (schedStart s) i) := by
  have hg := selGood_fold s (schedStart s) MAX_PROCS
  have h16 : MAX_PROCS = 16 := rfl
  rcases hg with ⟨hacc, hnone⟩ | ⟨c0, hc0, hacc, hr0, hmax, hstrict⟩
  · exfalso
    have hcj : scanPos (schedStart s) j < MAX_PROCS := by
      rw [h16]; exact scanPos_lt _ _
    have := hnone (scanPos (schedStart s) j) hcj
    rw [scanIdx_scanPos _ j (by omega)] at this
    exact this ⟨hready, hdyn⟩
  · refine ⟨scanIdx (schedStart s) c0, ?_, scanIdx_lt _ _, hr0, ?_, ?_⟩
    · rw [selectReady_eq_fold, hacc]
    · intro i hi hir
      have := hmax (scanPos (schedStart s) i) (by rw [h16]; exact scanPos_lt _ _)
      rw [scanIdx_scanPos _ i (by omega)] at this
      exact this hir
    · intro i hi hir heq
      rw [scanPos_scanIdx _ c0 (by omega)]
      by_contra hlt
      push_neg at hlt
      have := hstrict (scanPos (schedStart s) i) hlt
      rw [scanIdx_scanPos _ i (by omega)] at this
      have := this hir
      omega

/-! ## Field-level behaviour of the dispatch tail -/

theorem dispatch_dyn (u : PMState) (prev : Int) (next j : Nat) :
    ((reschedDispatch u prev next).1.proctab j).dyn_priority =
      (if j = next then (u.proctab next).priority
       else (u.proctab j).dyn_priority) := by
  simp only [reschedDispatch]
  split_ifs <;> (try simp only [updAt_proctab]) <;> (try split_ifs) <;>
    first | rfl | omega | simp_all

theorem dispatch_priority (u : PMState) (prev : Int) (next j : Nat) :
    ((reschedDispatch u prev next).1.proctab j).priority =
      (u.proctab j).priority := by
  simp only [reschedDispatch]
  split_ifs <;> (try simp only [updAt_proctab]) <;> (try split_ifs) <;>
    first | rfl | omega | simp_all

theorem dispatch_sleep_ticks (u : PMState) (prev : Int) (next j : Nat) :
    ((reschedDispatch u prev next).1.proctab j).sleep_ticks =
      (u.proctab j).sleep_ticks := by
  simp only [reschedDispatch]
  split_ifs <;> (try simp only [updAt_proctab]) <;> (try split_ifs) <;>
    first | rfl | omega | simp_all

theorem dispatch_state_other (u : PMState) (prev : Int) (next j : Nat)
    (hjn : j ≠ next) (hnc : (u.proctab j).state ≠ PR_CURRENT) :
    ((reschedDispatch u prev next).1.proctab j).state = (u.proctab j).state := by
  simp only [reschedDispatch]
  split_ifs <;> (try simp only [updAt_proctab]) <;> (try split_ifs) <;>
    first | rfl | omega | simp_all [updAt_proctab]

theorem dispatch_early_fields (u : PMState) (prev : Int) (next : Nat)
    (he : (next : Int) = prev ∧ 0 ≤ prev) (j : Nat) :
    ((reschedDispatch u prev next).1.proctab j).state = (u.proctab j).state ∧
    ((reschedDispatch u prev next).1.proctab j).sleep_ticks =
      (u.proctab j).sleep_ticks := by
  simp only [reschedDispatch]
  rw [if_pos he]
  constructor <;> simp only [updAt_proctab] <;> split_ifs <;>
    first | rfl | simp_all

theorem resched_eq_dispatch (u : PMState) (n : Nat)
    (hn : selectReady u = some n) :
    scheduler_reschedule u = (reschedDispatch u u.current_pid n).1 := by
  unfold scheduler_reschedule scheduler_reschedule_core
  rw [hn]

theorem resched_none_eq (u : PMState) (hn : selectReady u = none) :
    scheduler_reschedule u =
      (if 0 ≤ u.current_pid ∧
          (u.proctab u.current_pid.toNat).state = PR_CURRENT then u
       else (reschedDispatch u u.current_pid 0).1) := by
  unfold scheduler_reschedule scheduler_reschedule_core
  rw [hn]
  simp only []
  split_ifs <;> rfl

/-! ## Behaviour of the aging pass -/

theorem aging_state (s : PMState) (i : Nat) :
    ((scheduler_update_aging s).proctab i).state = (s.proctab i).state := by
  unfold scheduler_update_aging
  rw [tableFor_proctab]
  by_cases hi : i < MAX_PROCS
  · rw [if_pos hi]
    by_cases hr : (s.proctab i).state = PR_READY <;> simp [hr]
  · rw [if_neg hi]

theorem aging_priority (s : PMState) (i : Nat) :
    ((scheduler_update_aging s).proctab i).priority = (s.proctab i).priority := by
  unfold scheduler_update_aging
  rw [tableFor_proctab]
  by_cases hi : i < MAX_PROCS
  · rw [if_pos hi]
    by_cases hr : (s.proctab i).state = PR_READY <;> simp [hr]
  · rw [if_neg hi]

theorem aging_dyn_ready (s : PMState) (i : Nat) (hi : i < MAX_PROCS)
    (hr : (s.proctab i).state = PR_READY) :
    ((scheduler_update_aging s).proctab i).dyn_priority =
      (s.proctab i).dyn_priority + 1 := by
  unfold scheduler_update_aging
  rw [tableFor_proctab, if_pos hi, if_pos hr]

theorem aging_current (s : PMState) :
    (scheduler_update_aging s).current_pid = s.current_pid := rfl

/-! ## Claim C4 (amended): selection under priority with rotation -/

/-- Claim C4, amended: whenever at least one PCB is Ready with dynamic
priority above the scan's `-1` sentinel (in reachable states dynamic
priorities are at least 1, so this is every Ready PCB),
`scheduler_reschedule`'s selection returns a Ready PCB whose dynamic
priority is maximal among all Ready PCBs; ties are broken by the rotating
scan order that starts at `(current_pid + 1) % MAX_PROCS` — round-robin
from the last dispatched slot — which coincides with plain table order
only when `current_pid = -1`. -/
theorem C4_amended_selection (s : PMState) (j : Nat) (hj : j < MAX_PROCS)
    (hready : (s.proctab j).state = PR_READY)
    (hdyn : -1 < (s.proctab j).dyn_priority) :
    ∃ w, selectReady s = some w ∧ w < MAX_PROCS ∧
      (s.proctab w).state = PR_READY ∧
      (∀ i, i < MAX_PROCS → (s.proctab i).state = PR_READY →
        (s.proctab i).dyn_priority ≤ (s.proctab w).dyn_priority) ∧
      (∀ i, i < MAX_PROCS → (s.proctab i).state = PR_READY →
        (s.proctab i).dyn_priority = (s.proctab w).dyn_priority →
        scanPos (schedStart s) w ≤ scanPos (schedStart s) i) :=
  selectReady_finds s j hj hready hdyn

theorem C4_amended_selection_witness :
    0 < MAX_PROCS ∧ (selDemo.proctab 0).state = PR_READY ∧
    -1 < (selDemo.proctab 0).dyn_priority ∧
    (∃ w, selectReady selDemo = some w ∧ w < MAX_PROCS ∧
      (selDemo.proctab w).state = PR_READY ∧
      (∀ i, i < MAX_PROCS → (selDemo.proctab i).state = PR_READY →
        (selDemo.proctab i).dyn_priority ≤ (selDemo.proctab w).dyn_priority) ∧
      (∀ i, i < MAX_PROCS → (selDemo.proctab i).state = PR_READY →
        (selDemo.proctab i).dyn_priority = (selDemo.proctab w).dyn_priority →
        scanPos (schedStart selDemo) w ≤ scanPos (schedStart selDemo) i)) :=
  ⟨by decide, by decide, by decide,
   C4_amended_selection selDemo 0 (by decide) (by decide) (by decide)⟩

/-! ## Claim C3: aging pass before the winner's reset -/

/-- Claim C3: a scheduling round under priority-with-aging (the spec's
canonical composition: `scheduler_update_aging()` then
`scheduler_reschedule()`).  Whenever some PCB is Ready (with dynamic
priority at least the creation value's lower bound `-1 < dyn + 1`), the
round selects a Ready PCB `w`; `w`'s dynamic priority ends at exactly its
static priority — the reset lands after the aging bump, so the winner
never keeps its own bump — and every other Ready PCB's dynamic priority
increases by exactly one. -/
theorem C3_aging_then_reset (s : PMState) (j : Nat) (hj : j < MAX_PROCS)
    (hready : (s.proctab j).state = PR_READY)
    (hdyn : -1 ≤ (s.proctab j).dyn_priority) :
    ∃ w, w < MAX_PROCS ∧
      selectReady (scheduler_update_aging s) = some w ∧
      (s.proctab w).state = PR_READY ∧
      ((scheduler_reschedule (scheduler_update_aging s)).proctab w).dyn_priority
        = (s.proctab w).priority ∧
      (∀ i, i < MAX_PROCS → i ≠ w → (s.proctab i).state = PR_READY →
        ((scheduler_reschedule (scheduler_update_aging s)).proctab i).dyn_priority
          = (s.proctab i).dyn_priority + 1) := by
  set a := scheduler_update_aging s with ha
  have haready : (a.proctab j).state = PR_READY := by
    rw [ha, aging_state]; exact hready
  have hadyn : -1 < (a.proctab j).dyn_priority := by
    rw [ha, aging_dyn_ready s j hj hready]
    omega
  obtain ⟨w, hw, hwlt, hwready, _, _⟩ := selectReady_finds a j hj haready hadyn
  have hsw : (s.proctab w).state = PR_READY := by
    rw [ha, aging_state] at hwready
    exact hwready
  refine ⟨w, hwlt, hw, hsw, ?_, ?_⟩
  · rw [resched_eq_dispatch a w hw, dispatch_dyn, if_pos rfl, ha,
      aging_priority]
  · intro i hi hiw hir
    rw [resched_eq_dispatch a w hw, dispatch_dyn, if_neg hiw, ha,
      aging_dyn_ready s i hi hir]

theorem C3_aging_then_reset_witness :
    0 < MAX_PROCS ∧ (selDemo.proctab 0).state = PR_READY ∧
    -1 ≤ (selDemo.proctab 0).dyn_priority ∧
    (∃ w, w < MAX_PROCS ∧
      selectReady (scheduler_update_aging selDemo) = some w ∧
      (selDemo.proctab w).state = PR_READY ∧
      ((scheduler_reschedule (scheduler_update_aging selDemo)).proctab
          w).dyn_priority = (selDemo.proctab w).priority ∧
      (∀ i, i < MAX_PROCS → i ≠ w → (selDemo.proctab i).state = PR_READY →
        ((scheduler_reschedule (scheduler_update_aging selDemo)).proctab
            i).dyn_priority = (selDemo.proctab i).dyn_priority + 1)) :=
  ⟨by decide, by decide, by decide,
   C3_aging_then_reset selDemo 0 (by decide) (by decide) (by decide)⟩

/-! ## Claim C8: sleep timing -/

/-- The reschedule forced by `process_sleep` never touches the sleeping
slot's state or counter (the scan only selects Ready slots; the idle
fallback either early-returns on the sleeper itself or revives slot 0,
which is not the sleeper unless it early-returns). -/
theorem resched_preserves_sleep (u : PMState) (i : Nat) (hi : i < MAX_PROCS)
    (hcur : u.current_pid = (i : Int))
    (hsleep : (u.proctab i).state = PR_SLEEP) :
    ((scheduler_reschedule u).proctab i).state = PR_SLEEP ∧
    ((scheduler_reschedule u).proctab i).sleep_ticks =
      (u.proctab i).sleep_ticks := by
  have hnc : (u.proctab i).state ≠ PR_CURRENT := by
    rw [hsleep]
    exact fun h => PState.noConfusion h
  cases hsel : selectReady u with
  | some n =>
      have hready := (selectReady_ready u n hsel).1
      have hne : i ≠ n := by
        intro h
        subst h
        rw [hsleep] at hready
        exact PState.noConfusion hready
      rw [resched_eq_dispatch u n hsel]
      refine ⟨?_, dispatch_sleep_ticks u u.current_pid n i⟩
      rw [dispatch_state_other u u.current_pid n i hne hnc]
      exact hsleep
  | none =>
      rw [resched_none_eq u hsel]
      have hcnat : u.current_pid.toNat = i := by rw [hcur]; rfl
      have hcond : ¬(0 ≤ u.current_pid ∧
          (u.proctab u.current_pid.toNat).state = PR_CURRENT) := by
        intro hcon
        rw [hcnat] at hcon
        exact hnc hcon.2
      rw [if_neg hcond]
      by_cases hi0 : i = 0
      · subst hi0
        have he : ((0 : Nat) : Int) = u.current_pid ∧ 0 ≤ u.current_pid := by
          rw [hcur]
          exact ⟨rfl, le_refl 0⟩
        obtain ⟨h1, h2⟩ := dispatch_early_fields u u.current_pid 0 he 0
        exact ⟨by rw [h1]; exact hsleep, h2⟩
      · refine ⟨?_, dispatch_sleep_ticks u u.current_pid 0 i⟩
        rw [dispatch_state_other u u.current_pid 0 i hi0 hnc]
        exact hsleep

/-- Lemma: `process_sleep(t)` with `t > 0` leaves the calling (Current) process
Sleeping with `sleep_ticks = t`, across the forced reschedule. -/
theorem sleep_sets (s : PMState) (i : Nat) (t : Int) (hi : i < MAX_PROCS)
    (hc : s.currpid = some i) (hcur : s.current_pid = (i : Int))
    (ht : 0 < t) :
    ((process_sleep t s).proctab i).state = PR_SLEEP ∧
    ((process_sleep t s).proctab i).sleep_ticks = t := by
  unfold process_sleep
  rw [if_neg (by omega : ¬ t ≤ 0)]
  simp only [hc]
  set u := updAt s i (fun p => { p with sleep_ticks := t, state := PR_SLEEP })
    with hu
  have hui : u.proctab i =
      { s.proctab i with sleep_ticks := t, state := PR_SLEEP } := by
    rw [hu, updAt_proctab, if_pos rfl]
  have hustate : (u.proctab i).state = PR_SLEEP := by rw [hui]
  have hucur : u.current_pid = (i : Int) := hcur
  obtain ⟨h1, h2⟩ := resched_preserves_sleep u i hi hucur hustate
  refine ⟨h1, ?_⟩
  rw [h2, hui]

/-- Effect of one `process_timer_tick()` on a Sleeping slot. -/
theorem tick_slot (s : PMState) (i : Nat) (hi : i < MAX_PROCS)
    (hsleep : (s.proctab i).state = PR_SLEEP) :
    (process_timer_tick s).proctab i =
      { s.proctab i with
          sleep_ticks := (s.proctab i).sleep_ticks - 1,
          state := if (s.proctab i).sleep_ticks - 1 ≤ 0 then PR_READY
                   else PR_SLEEP } := by
  unfold process_timer_tick
  rw [tableFor_proctab, if_pos hi, if_pos hsleep]

/-- After `k < m` ticks, a slot that was Sleeping with counter `m` is
still Sleeping with counter `m - k`. -/
theorem tick_iter (i : Nat) (hi : i < MAX_PROCS) :
    ∀ (k : Nat) (s : PMState) (m : Nat), (s.proctab i).state = PR_SLEEP →
      (s.proctab i).sleep_ticks = (m : Int) → k < m →
      ((process_timer_tick^[k] s).proctab i).state = PR_SLEEP ∧
      ((process_timer_tick^[k] s).proctab i).sleep_ticks =
        ((m - k : Nat) : Int) := by
  intro k
  induction k with
  | zero =>
      intro s m h1 h2 _
      rw [Function.iterate_zero_apply]
      refine ⟨h1, ?_⟩
      rw [h2]
      norm_num
  | succ k ih =>
      intro s m h1 h2 hk
      rw [Function.iterate_succ_apply]
      have hs' := tick_slot s i hi h1
      have hstate' : ((process_timer_tick s).proctab i).state = PR_SLEEP := by
        rw [hs']
        show (if (s.proctab i).sleep_ticks - 1 ≤ 0 then PR_READY
              else PR_SLEEP) = PR_SLEEP
        rw [h2, if_neg (by omega)]
      have hticks' : ((process_timer_tick s).proctab i).sleep_ticks =
          ((m - 1 : Nat) : Int) := by
        rw [hs']
        show (s.proctab i).sleep_ticks - 1 = ((m - 1 : Nat) : Int)
        rw [h2]
        omega
      obtain ⟨ha, hb⟩ := ih (process_timer_tick s) (m - 1) hstate' hticks'
        (by omega)
      refine ⟨ha, ?_⟩
      rw [hb]
      congr 1
      omega

/-- The `m`-th tick moves the sleeper to Ready. -/
theorem tick_fires (i : Nat) (hi : i < MAX_PROCS) (s : PMState) (m : Nat)
    (h1 : (s.proctab i).state = PR_SLEEP)
    (h2 : (s.proctab i).sleep_ticks = (m : Int)) (hm : 0 < m) :
    ((process_timer_tick^[m] s).proctab i).state = PR_READY := by
  obtain ⟨k, rfl⟩ : ∃ k, m = k + 1 := ⟨m - 1, by omega⟩
  rw [Function.iterate_succ_apply']
  obtain ⟨ha, hb⟩ := tick_iter i hi k s (k + 1) h1 h2 (by omega)
  have hs' := tick_slot (process_timer_tick^[k] s) i hi ha
  rw [hs']
  show (if (((process_timer_tick^[k] s)).proctab i).sleep_ticks - 1 ≤ 0
        then PR_READY else PR_SLEEP) = PR_READY
  rw [hb]
  rw [if_pos (by omega)]

/-- Claim C8: a Current process that calls `sleep(N)` with `N > 0`
becomes Sleeping; it is still Sleeping (hence not Ready) after every
`k < N` subsequent `timer_tick()` calls, and it is Ready exactly at the
`N`-th tick. -/
theorem C8_sleep_timing (s : PMState) (i N : Nat) (hi : i < MAX_PROCS)
    (hc : s.currpid = some i) (hcur : s.current_pid = (i : Int))
    (hN : 0 < N) :
    ((process_sleep (N : Int) s).proctab i).state = PR_SLEEP ∧
    (∀ k, k < N →
      ((process_timer_tick^[k] (process_sleep (N : Int) s)).proctab i).state
        = PR_SLEEP) ∧
    ((process_timer_tick^[N] (process_sleep (N : Int) s)).proctab i).state
      = PR_READY := by
  have hN' : (0 : Int) < (N : Int) := by exact_mod_cast hN
  obtain ⟨h1, h2⟩ := sleep_sets s i (N : Int) hi hc hcur hN'
  exact ⟨h1,
    fun k hk => (tick_iter i hi k _ N h1 h2 hk).1,
    tick_fires i hi _ N h1 h2 hN⟩

theorem C8_sleep_timing_witness :
    0 < MAX_PROCS ∧ sleepDemo.currpid = some 0 ∧
    sleepDemo.current_pid = ((0 : Nat) : Int) ∧ 0 < 3 ∧
    (((process_sleep ((3 : Nat) : Int) sleepDemo).proctab 0).state
       = PR_SLEEP ∧
     (∀ k, k < 3 →
       ((process_timer_tick^[k]
           (process_sleep ((3 : Nat) : Int) sleepDemo)).proctab 0).state
         = PR_SLEEP) ∧
     ((process_timer_tick^[3]
         (process_sleep ((3 : Nat) : Int) sleepDemo)).proctab 0).state
       = PR_READY) :=
  ⟨by decide, by decide, by decide, by decide,
   C8_sleep_timing sleepDemo 0 3 (by decide) (by decide) (by decide)
     (by decide)⟩

/-! ## Closed counterexamples and failing-input evaluations -/

/-- Claim C1, counterexample: from a 16384-byte region (8192-byte heap
arena, 8180 free bytes) one process is created with a 4096-byte stack,
dispatched and explicitly terminated; the allocator's free-byte count
stays at its post-allocation value 4084 instead of returning to 8180, no
deallocation ever happens, and the Terminated PCB still holds its stack
region fields — the stack is never released. -/
theorem C1_stack_never_released_counterexample :
    (bootSys 16384).heap.free_heap_size = 8180 ∧
    (let s := runOps (bootSys 16384)
        [POp.initOp, POp.createWSOp (some 1), POp.reschedOp, POp.terminateOp]
     s.heap.free_heap_size = 4084 ∧ s.heap.num_deallocations = 0 ∧
     (s.pm.proctab 0).state = PR_TERMINATED ∧
     (s.pm.proctab 0).mem = some 12 ∧
     (s.pm.proctab 0).stack_base = some 12) ∧
    (4084 : Nat) ≠ 8180 := by
  decide

/-- Claim C2, counterexample: (a) one split allocation makes
`used + free + header_overhead` exceed the arena size by one header (the
split's new header is not charged to the tracked free bytes); (b) an
allocation whose found block exceeds the rounded request by less than a
header underflows `split_block`'s size computation, and a follow-up
allocation carves two live blocks whose payload byte ranges (i386 pointer
arithmetic, modulo `2^32`) both contain relative address 12 — live
regions overlap. -/
theorem C2_accounting_counterexample :
    (let h := (heap_alloc (mem_init 512) 16).1
     h.used_heap_size + h.free_heap_size + HDR * h.blocks.length ≠
       h.total_heap_size) ∧
    (let bs := (heap_alloc (heap_alloc (mem_init 1024) 492).1 (W - 64)).1.blocks
     (blockGet bs 0).is_free = false ∧ (blockGet bs 1).is_free = false ∧
     inRegion bs 0 12 ∧ inRegion bs 1 12) := by
  refine ⟨by decide, by decide, by decide, ⟨0, by decide, by decide⟩, ?_⟩
  exact ⟨W - 504, by decide, by decide⟩

/-- Claim C4, counterexample: four equal-priority processes; after
dispatching pids 0, 1 and 2 in turn, slots 0, 1 and 3 are Ready with
equal (maximal) dynamic priority, yet `scheduler_reschedule`'s scan —
which starts at `current_pid + 1 = 3`, not at the top of the table —
selects pid 3, not the table-earliest candidate 0. -/
theorem C4_tiebreak_counterexample :
    let s := (runOps (bootSys 0)
      [POp.initOp, POp.createOp (some 1), POp.createOp (some 1),
       POp.createOp (some 1), POp.createOp (some 1),
       POp.reschedOp, POp.yieldOp, POp.yieldOp]).pm
    (s.proctab 0).state = PR_READY ∧ (s.proctab 3).state = PR_READY ∧
    (s.proctab 0).dyn_priority = (s.proctab 3).dyn_priority ∧
    (∀ i, i < MAX_PROCS → (s.proctab i).state = PR_READY →
        (s.proctab i).dyn_priority ≤ (s.proctab 3).dyn_priority) ∧
    selectReady s = some 3 := by
  decide

/-- Claim C6, failing input evaluated: the fresh 512-byte arena holds one
free block of 500 bytes; a 492-byte request (aligned: 492) exceeds it by
only 8 ≤ header + slack, so per the claim the block must be handed out
unchanged — but `remaining = 500 - 492 - 12` underflows `size_t`, the
guard `remaining > 16` passes, and the block is split with a bogus free
remainder of `2^32 - 4` bytes that does not lie within the original
block. -/
theorem C6_underflow_split_eval :
    (mem_init 1024).blocks = [⟨500, true⟩] ∧
    500 ≤ 492 + (HDR + 16) ∧
    (heap_alloc (mem_init 1024) 492).1.blocks =
      [⟨492, false⟩, ⟨W - 4, true⟩] := by
  decide

/-- Claim C9, failing input evaluated: `reschedule` on an empty table
falls back to dispatching slot 0 — a Terminated PCB whose `pid` field is
still `-1` from initialization; `terminate` then writes
`proctab[-1].state` (out of bounds) instead of slot 0, and clears
`current_pid` while slot 0 stays Current; after one more create and
reschedule, slots 0 and 1 are both Current. -/
theorem C9_two_current_eval :
    countCurrent (runOps (bootSys 0)
      [POp.initOp, POp.reschedOp, POp.terminateOp, POp.createOp (some 1),
       POp.reschedOp]).pm = 2 := by
  decide

/-- Claim C10, failing input evaluated: on the first dispatch after
initialization (`current_pid = -1`), `scheduler_reschedule` reaches
`ctxsw(&proctab[previous_pid].esp, &proctab[next_pid].esp)` with
`previous_pid = -1`, i.e. the outgoing saved-context slot is
`proctab[-1]` — outside `[0, MAX_PROCS)`. -/
theorem C10_oob_ctxsw_eval :
    (scheduler_reschedule_core
        (runOps (bootSys 0) [POp.initOp, POp.createOp (some 1)]).pm).2 =
      some (-1, 0) ∧ ¬ 0 ≤ (-1 : Int) := by
  decide

end KacchiOS
